import Mathlib

/-!
Verification development for the toyota-hackathon-suite lap-analysis core.

The repository's core pipeline (src/ghost.py, src/get_live_lap.py,
src/pages/2_Real-Time_Coach.py, src/pages/3_Post-Event_Analysis.py) is
embedded shallowly:

* pandas frames become Lean lists; float64 arithmetic is modelled exactly
  over `ℚ` (the remarks on floating tolerance in the claims are interpreted
  over this exact model);
* a raw telemetry row (timestamp, telemetry_name, telemetry_value) becomes
  `Raw`; timestamp strings are modelled by abstract keys `t : ℚ` whose
  lexicographic order and parsed datetime order coincide, together with a
  parse predicate `pOk : ℚ → Bool` standing for whether
  `pd.to_datetime(·, errors='coerce')` succeeds on that string;
* `Series.astype(int)` applied to a datetime column containing `NaT`
  raises `ValueError: Cannot convert NaT values to integer` (pandas ≥ 0.24);
  the scripts catch every exception and return `None`, which is modelled by
  `Except LapError`;
* `NaN` cells are modelled by `Option ℚ` / `Option` labels.
-/

/-! ## Generic list helpers (pandas ffill/bfill, np.min, np.median, np.argmin,
np.where(...)[0][0]) -/

/-- Forward fill over `Option` values, carrying the accumulator `acc`
(the last observed value) into `none` cells; models `Series.ffill`. -/
def ffillAux {α : Type} (acc : Option α) : List (Option α) → List (Option α)
  | [] => []
  | x :: xs =>
    match x with
    | some a => some a :: ffillAux (some a) xs
    | none => acc :: ffillAux acc xs

/-- `Series.ffill` from a blank start. -/
def ffillO {α : Type} (l : List (Option α)) : List (Option α) :=
  ffillAux none l

/-- `Series.bfill`: forward fill of the reversed list, reversed back. -/
def bfillO {α : Type} (l : List (Option α)) : List (Option α) :=
  (ffillAux none l.reverse).reverse

/-- Arithmetic mean of a list of rationals; `none` on the empty list
(pandas mean of an empty group is `NaN`). -/
def listMean (l : List ℚ) : Option ℚ :=
  if l = [] then none else some (l.sum / l.length)

/-- `np.min` of an array: `none` on the empty array (numpy raises there,
but every use below is guarded by a non-emptiness test, as in the source). -/
def npMin (l : List ℚ) : Option ℚ :=
  match l with
  | [] => none
  | x :: xs => some (xs.foldl min x)

/-- `np.median`: middle element of the sorted data for odd length, mean of
the two middle elements for even length. Every use below is guarded so the
empty case (numpy would give `NaN`) is never relevant. -/
def npMedian (l : List ℚ) : ℚ :=
  let s := List.insertionSort (· ≤ ·) l
  if s.length % 2 = 1 then s.getD (s.length / 2) 0
  else (s.getD (s.length / 2 - 1) 0 + s.getD (s.length / 2) 0) / 2

/-- The element at the first index minimising `f`, i.e.
`l[np.argmin(np.array(l.map f))]`; `np.argmin` returns the first
occurrence of the minimum. -/
def argminBy (f : ℚ → ℚ) : List ℚ → Option ℚ
  | [] => none
  | x :: xs =>
    match argminBy f xs with
    | none => some x
    | some m => if f m < f x then some m else some x

/-- First index satisfying a predicate; models `np.where(cond)[0][0]`
(`none` when `np.where` returns an empty index array). -/
def findIdxO {α : Type} (q : α → Bool) : List α → Option ℕ
  | [] => none
  | x :: xs => if q x then some 0 else (findIdxO q xs).map (· + 1)

/-- Adjacent pairs of a list: `l.zip l.tail`; models both
`np.diff` (via the subtraction of the components) and the
`for i in range(len(xs) - 1)` loop over consecutive crossings. -/
def consecPairs {α : Type} (l : List α) : List (α × α) :=
  l.zip l.tail

/-! ## Telemetry normalisation (src/ghost.py lines 10-38,
src/get_live_lap.py lines 14-42, src/pages/3_Post-Event_Analysis.py
lines 11-29) -/

/-- One raw CSV row `(timestamp, telemetry_name, telemetry_value)`.
`t` is the timestamp key (string order and parsed order coincide in the
model), `ch` the channel id, `v` the numeric value. Channel ids follow
the `telemetry_cols` list of the source: 0 = Laptrigger_lapdist_dls,
1 = Steering_Angle, 2 = VBOX_Lat_Min, 3 = VBOX_Long_Minutes,
4 = accx_can, 5 = accy_can, 6 = aps, 7 = gear, 8 = nmot, 9 = pbrake_f,
10 = pbrake_r, 11 = speed. -/
structure Raw where
  t : ℚ
  ch : ℕ
  v : ℚ
deriving DecidableEq

/-- The twelve `telemetry_cols` of src/ghost.py lines 27-31. -/
def telemetryCols : List ℕ := List.range 12

/-- The failure modes of the scripts. Each script prints a distinct
diagnostic and returns `None`; the spec names the branches
`DataError` / `InsufficientDataError` / `NoValidLapError`.
`unexpected` models the blanket `except Exception` handler. -/
inductive LapError where
  | dataError
  | insufficientData
  | noValidLap
  | unexpected
deriving DecidableEq

/-- Mean of the distance-channel (`Laptrigger_lapdist_dls`, channel 0)
values recorded at timestamp key `k`; models the `pivot_table`
`aggfunc='mean'` cell, `none` when no distance sample exists at `k`. -/
def meanDist (l : List Raw) (k : ℚ) : Option ℚ :=
  listMean ((l.filter (fun r => r.t = k ∧ r.ch = 0)).map Raw.v)

/-- `pivot_table(index='timestamp', columns='telemetry_name',
values='telemetry_value', aggfunc='mean')`, restricted to the distance
column: one row per distinct timestamp key, sorted ascending. -/
def pivotFrame (l : List Raw) : List (ℚ × Option ℚ) :=
  (List.insertionSort (· ≤ ·) (l.map Raw.t).dedup).map (fun k => (k, meanDist l k))

/-- Forward fill of the distance column along the pivoted rows
(`df_wide[telemetry_cols].ffill()`, each channel independent). -/
def ffillRows (acc : Option ℚ) : List (ℚ × Option ℚ) → List (ℚ × Option ℚ)
  | [] => []
  | (t, v) :: rest =>
    match v with
    | some a => (t, some a) :: ffillRows (some a) rest
    | none => (t, acc) :: ffillRows acc rest

/-- `dropna(subset=['time_sec', 'Laptrigger_lapdist_dls'])`: keep the rows
whose distance cell is defined (after the fill); `time_sec` is never `NaN`
once every timestamp parsed. -/
def dropNone (rows : List (ℚ × Option ℚ)) : List (ℚ × ℚ) :=
  rows.filterMap (fun r => r.2.map (fun d => (r.1, d)))

/-- Normalisation of src/ghost.py lines 10-38 (identical in
src/get_live_lap.py lines 14-42). After pivoting, the script sorts by the
parsed datetime (`NaT` last, which under the model's order-preserving
parse leaves the pivot order unchanged) and runs
`timestamp_dt.astype(int)`, which raises as soon as any timestamp failed
to parse; then `df_wide[telemetry_cols]` raises `KeyError` when any of
the twelve channels never occurs; finally the distance column is
forward-filled and rows without a distance are dropped. -/
def normalizeFrame (pOk : ℚ → Bool) (l : List Raw) : Except LapError (List (ℚ × ℚ)) :=
  let rows := pivotFrame l
  if rows.all (fun r => pOk r.1) = false then .error .dataError
  else if telemetryCols.all (fun c => l.any (fun r => r.ch == c)) = false then
    .error .dataError
  else .ok (dropNone (ffillRows none rows))

/-- Normalisation of src/pages/3_Post-Event_Analysis.py lines 11-29: same
pivot/sort/astype steps, whole-frame `ffill` (identical on the distance
column), and the only column whose absence raises is
`Laptrigger_lapdist_dls` (used by `pd.cut` and `dropna`). -/
def normalizeFrameP3 (pOk : ℚ → Bool) (l : List Raw) : Except LapError (List (ℚ × ℚ)) :=
  let rows := pivotFrame l
  if rows.all (fun r => pOk r.1) = false then .error .dataError
  else if l.any (fun r => r.ch == 0) = false then .error .dataError
  else .ok (dropNone (ffillRows none rows))

/-! ## Lap segmentation and selection (src/ghost.py lines 41-63,
src/get_live_lap.py lines 45-78, src/pages/3_Post-Event_Analysis.py
lines 37-65) -/

/-- Crossing timestamps: `df_valid['dist_diff'] = dist.diff()` followed by
`df_valid[df_valid['dist_diff'] < threshold]['time_sec']`. The first row's
diff is `NaN`, which never compares below the threshold, so only adjacent
pairs are inspected; the timestamp recorded is the row after the drop. -/
def crossingTimes (frame : List (ℚ × ℚ)) (th : ℚ) : List ℚ :=
  (consecPairs frame).filterMap
    (fun p => if p.2.2 - p.1.2 < th then some p.2.1 else none)

/-- `lap_durations = np.diff(crossing_timestamps_sec)`. -/
def lapDurations (cs : List ℚ) : List ℚ :=
  (consecPairs cs).map (fun p => p.2 - p.1)

/-- src/ghost.py lines 57-59: `fastest_duration = np.min(valid)` then
`np.where(lap_durations == fastest_duration)[0][0]`. -/
def selectFastestIdx (ds : List ℚ) (mt : ℚ) : Option ℕ :=
  match npMin (ds.filter (fun d => decide (mt < d))) with
  | none => none
  | some fastest => findIdxO (fun d => decide (d = fastest)) ds

/-- src/get_live_lap.py lines 66-74: median of the valid durations, the
valid duration closest to it (`np.argmin` of the absolute differences,
first occurrence on ties), then `np.where(lap_durations == value)[0][0]`. -/
def selectMedianIdx (ds : List ℚ) (mt : ℚ) : Option ℕ :=
  let valid := ds.filter (fun d => decide (mt < d))
  let med := npMedian valid
  match argminBy (fun d => |d - med|) valid with
  | none => none
  | some v => findIdxO (fun d => decide (d = v)) ds

/-- Fastest-lap extraction on a normalised frame, src/ghost.py lines
41-63. The `.ok` payload is the `(start_time_sec, end_time_sec)` bounds
of the slice that the script rebases and writes to `ghost_lap.csv`; every
`.error` branch returns `None` before any slice or write happens. -/
def ghostInterval (frame : List (ℚ × ℚ)) (th mt : ℚ) : Except LapError (ℚ × ℚ) :=
  let cs := crossingTimes frame th
  if cs.length < 2 then .error .insufficientData
  else
    let ds := lapDurations cs
    if ds.filter (fun d => decide (mt < d)) = [] then .error .noValidLap
    else
      match selectFastestIdx ds mt with
      | none => .error .unexpected
      | some i =>
        if i + 1 < cs.length then .ok (cs.getD i 0, cs.getD (i + 1) 0)
        else .error .unexpected

/-- Median ("average") lap extraction on a normalised frame,
src/get_live_lap.py lines 45-78; same skeleton with the median selection. -/
def medianInterval (frame : List (ℚ × ℚ)) (th mt : ℚ) : Except LapError (ℚ × ℚ) :=
  let cs := crossingTimes frame th
  if cs.length < 2 then .error .insufficientData
  else
    let ds := lapDurations cs
    if ds.filter (fun d => decide (mt < d)) = [] then .error .noValidLap
    else
      match selectMedianIdx ds mt with
      | none => .error .unexpected
      | some i =>
        if i + 1 < cs.length then .ok (cs.getD i 0, cs.getD (i + 1) 0)
        else .error .unexpected

/-- The lap-interval list of src/pages/3_Post-Event_Analysis.py lines
45-65: every consecutive crossing pair whose duration exceeds the
minimum becomes a `(start_t, end_t)` record. -/
def lapIntervals (frame : List (ℚ × ℚ)) (th mt : ℚ) : List (ℚ × ℚ) :=
  (consecPairs (crossingTimes frame th)).filterMap
    (fun p => if mt < p.2 - p.1 then some p else none)

/-- Full `find_ghost_lap` pipeline from raw rows. -/
def findGhostLapE (pOk : ℚ → Bool) (l : List Raw) (th mt : ℚ) :
    Except LapError (ℚ × ℚ) :=
  match normalizeFrame pOk l with
  | .error e => .error e
  | .ok frame => ghostInterval frame th mt

/-- Full `find_median_lap` pipeline from raw rows. -/
def findMedianLapE (pOk : ℚ → Bool) (l : List Raw) (th mt : ℚ) :
    Except LapError (ℚ × ℚ) :=
  match normalizeFrame pOk l with
  | .error e => .error e
  | .ok frame => medianInterval frame th mt

/-- Full `load_all_lap_data` lap-list pipeline from raw rows
(src/pages/3_Post-Event_Analysis.py lines 8-67). -/
def loadAllLapData (pOk : ℚ → Bool) (l : List Raw) (th mt : ℚ) :
    Except LapError (List (ℚ × ℚ)) :=
  match normalizeFrameP3 pOk l with
  | .error e => .error e
  | .ok frame => .ok (lapIntervals frame th mt)

/-! ## Resampler/Aligner (src/pages/2_Real-Time_Coach.py lines 30-43) -/

/-- `np.arange(0, stop, 0.01)`: the fixed-step grid of
`⌈stop · 100⌉` points `i / 100`, empty when `stop ≤ 0`. -/
def arangeGrid (stop : ℚ) : List ℚ :=
  (List.range (Nat.ceil (stop * 100))).map (fun i : ℕ => (i : ℚ) / 100)

/-- `index.max()` of a lap record (the last `lap_timestamp`); 0 only as a
junk value for the empty record, where pandas would give `NaN`. -/
def recordDuration (rec : List (ℚ × Option ℚ)) : ℚ :=
  match rec.map Prod.fst with
  | [] => 0
  | x :: xs => xs.foldl max x

/-- The shared `combined_index` of lines 33-37:
`np.arange(0, max(ghost.index.max(), live.index.max()), 0.01)`. -/
def alignGrid (g l : List (ℚ × Option ℚ)) : List ℚ :=
  arangeGrid (max (recordDuration g) (recordDuration l))

instance decRelFstLe : DecidableRel (fun a b : ℚ × ℚ => a.1 ≤ b.1) :=
  fun a b => inferInstanceAs (Decidable (a.1 ≤ b.1))

/-- The channel's observed samples, time-sorted (reindexing over the
union index sorts them). -/
def sortedValids (ch : List (ℚ × Option ℚ)) : List (ℚ × ℚ) :=
  List.insertionSort (fun a b => a.1 ≤ b.1)
    (ch.filterMap (fun p => p.2.map (fun v => (p.1, v))))

/-- Value of `reindex(union).interpolate('time')` at grid time `t`:
linear interpolation in time between the surrounding observed samples;
the last observed value past the final sample (interpolate fills trailing
gaps forward); `none` before the first observed sample (interpolate never
fills backwards; the later `bfill` handles that edge). -/
def interpAt (vs : List (ℚ × ℚ)) (t : ℚ) : Option ℚ :=
  match (vs.filter (fun p => p.1 ≤ t)).getLast?, vs.find? (fun p => t < p.1) with
  | none, _ => none
  | some p1, none => some p1.2
  | some p1, some p2 => some (p1.2 + (p2.2 - p1.2) * (t - p1.1) / (p2.1 - p1.1))

/-- One channel of `reindex(union).interpolate('time').reindex(grid)`
followed by `.ffill().bfill()` (lines 39-43). -/
def resampleChannel (ch : List (ℚ × Option ℚ)) (grid : List ℚ) : List (Option ℚ) :=
  bfillO (ffillO (grid.map (interpAt (sortedValids ch))))

/-! ## Delta Engine (src/pages/2_Real-Time_Coach.py lines 45-68) -/

/-- Sector ids: 0 = "Sector 1", 1 = "Sector 2", 2 = "Sector 3". -/
abbrev Sector := Fin 3

/-- `pd.cut(dist, bins=[0.0, 1364.3, 2751.2, 6000.0], labels, right=True)`:
half-open-below intervals `(lower, upper]`; values outside every bin
(including exactly 0) get `NaN`. -/
def cutIMS (d : ℚ) : Option Sector :=
  if 0 < d ∧ d ≤ 13643 / 10 then some 0
  else if 13643 / 10 < d ∧ d ≤ 27512 / 10 then some 1
  else if 27512 / 10 < d ∧ d ≤ 6000 then some 2
  else none

/-- Sector labels of a resampled distance column:
`pd.cut(...)` then `.ffill().bfill()` (lines 54-58). -/
def sectorLabels (dists : List (Option ℚ)) : List (Option Sector) :=
  bfillO (ffillO (dists.map (fun od => od.bind cutIMS)))

/-- `groupby('sector').apply(len)` for one sector label. -/
def sectorCount (ls : List (Option Sector)) (s : Sector) : ℕ :=
  ls.count (some s)

/-- The `sector_analysis_df` of lines 60-68: one row per sector with
`(sector, ghost rows · 0.01, live rows · 0.01)`. `pd.cut` makes the
`sector` column Categorical, so `groupby('sector')` (with the
`observed=False` default of pandas 1.x/2.x) applies `len` to all three
categories, empty ones included: each frame contributes a (possibly zero)
row count for every sector, never a `NaN`, and the final `dropna()`
removes nothing. -/
def sectorTable (gl ll : List (Option Sector)) : List (Sector × ℚ × ℚ) :=
  ([0, 1, 2] : List Sector).map (fun s =>
    (s, (sectorCount gl s : ℚ) * (1 / 100), (sectorCount ll s : ℚ) * (1 / 100)))

/-- Sum of the `Delta (s)` column (`Live Time (s) - Ghost Time (s)`,
line 67) over the sector table. -/
def sectorDeltaSum (gl ll : List (Option Sector)) : ℚ :=
  ((sectorTable gl ll).map (fun r => r.2.2 - r.2.1)).sum

/-- Final value of the `time_delta_cumulative` column (lines 45-46):
`cumsum` of `(live.speed - ghost.speed) / 3600 * 0.01`. `cumsum` skips
`NaN` cells, so the last defined running total is the sum of the deltas
at rows where both speeds are defined. -/
def cumDeltaFinal (gs ls : List (Option ℚ)) : ℚ :=
  ((ls.zip gs).filterMap (fun p =>
    match p.1, p.2 with
    | some a, some b => some ((a - b) / 3600 * (1 / 100))
    | _, _ => none)).sum

/-! ## Spec-side selection characterisations (section 4.3 of the spec).
These two definitions follow the spec's words, to be compared with the
source-derived `selectFastestIdx` / `selectMedianIdx`. -/

/-- Spec 4.3 "Fastest": the first index (time order) of a valid candidate
whose duration is minimal among all valid candidates. -/
def specFastestIdx (ds : List ℚ) (mt : ℚ) : Option ℕ :=
  findIdxO (fun d =>
    decide (mt < d) &&
    (ds.filter (fun x => decide (mt < x))).all (fun j => decide (d ≤ j))) ds

/-- Spec 4.3 "Representative": the first index (duration-array order) of a
valid candidate whose absolute difference from the median of the valid
durations is minimal among valid candidates. -/
def specMedianIdx (ds : List ℚ) (mt : ℚ) : Option ℕ :=
  let valid := ds.filter (fun x => decide (mt < x))
  let med := npMedian valid
  findIdxO (fun d =>
    decide (mt < d) && valid.all (fun j => decide (|d - med| ≤ |j - med|))) ds

/-! ## Concrete data used by the claim theorems -/

/-- The frame of the C2 scenario: distance resets 3000 → 0 at t = 100 and
t = 165, so the first difference at each reset is exactly −3000. -/
def c2FrameExact : List (ℚ × ℚ) :=
  [(0, 0), (50, 3000), (100, 0), (160, 3000), (165, 0), (220, 2000)]

/-- The same scenario with resets of 3001 → 0, whose drops are strictly
below the −3000 threshold. -/
def c2FrameStrict : List (ℚ × ℚ) :=
  [(0, 0), (50, 3001), (100, 0), (160, 3001), (165, 0), (220, 2000)]

/-- Rows providing every one of the twelve telemetry channels at t = 0
(value 100 for each; in particular the distance channel reads 100). -/
def rawAllCh : List Raw := (List.range 12).map (fun c => ⟨0, c, 100⟩)

/-- Parse predicate under which the timestamp key 1 is malformed
(`pd.to_datetime` yields `NaT`) and every other key parses. -/
def pOkC7 : ℚ → Bool := fun t => decide (t ≠ 1)

/-- Raw stream without the malformed row. -/
def rawC7good : List Raw := rawAllCh ++ [⟨2, 0, 50⟩]

/-- Raw stream with one malformed-timestamp row (key 1, which also
carries a distance sample). -/
def rawC7bad : List Raw := rawAllCh ++ [⟨1, 0, 77⟩, ⟨2, 0, 50⟩]

/-- Session whose only two crossings bound a single 20-second lap, below
the 60-second minimum. -/
def rawShortLaps : List Raw :=
  rawAllCh ++ [⟨10, 0, 5000⟩, ⟨20, 0, 100⟩, ⟨30, 0, 5000⟩, ⟨40, 0, 100⟩]

/-- Raw distance-only stream realising the 3001 → 0 double-reset session. -/
def rawC5 : List Raw :=
  [⟨0, 0, 0⟩, ⟨50, 0, 3001⟩, ⟨100, 0, 0⟩, ⟨160, 0, 3001⟩, ⟨165, 0, 0⟩, ⟨220, 0, 2000⟩]

/-- Ghost record observing a channel only at its final instant t = 0.02
(= its duration), and a shorter live record. -/
def c6Ghost : List (ℚ × Option ℚ) := [(0, none), (1/50, some 5)]

/-- Live record for the C6 counterexample. -/
def c6Live : List (ℚ × Option ℚ) := [(0, some 1), (1/100, some 2)]

/-- Concrete records for the C6 witness. -/
def c6WGhost : List (ℚ × Option ℚ) := [(0, some 1)]

/-- Concrete live record for the C6 witness. -/
def c6WLive : List (ℚ × Option ℚ) := [(0, some 2), (1/100, some 3)]

/-- Ghost distances visiting Sector 1 then Sector 2; paired with
`c9LiveDists` this exercises a sector (Sector 2) that only one frame
visits, whose table row carries a zero count for the other frame. -/
def c9GhostDists : List (Option ℚ) := [some 1000, some 2000]

/-- Live distances staying inside Sector 1. -/
def c9LiveDists : List (Option ℚ) := [some 500, some 600]

/-- Distances for the C1 counterexample ghost lap (all Sector 1). -/
def c1GhostDists : List (Option ℚ) := [some 100, some 200]

/-- Distances for the C1 counterexample live lap (all Sector 1). -/
def c1LiveDists : List (Option ℚ) := [some 150, some 250]

/-- Ghost speed column for the C1 counterexample. -/
def c1GhostSpeeds : List (Option ℚ) := [some 0, some 0]

/-- Live speed column for the C1 counterexample. -/
def c1LiveSpeeds : List (Option ℚ) := [some 720, some 720]

/-! ## Lemmas about the selection helpers -/

theorem findIdxO_congr {α : Type} (p q : α → Bool) :
    ∀ l : List α, (∀ x ∈ l, p x = q x) → findIdxO p l = findIdxO q l := by
  intro l
  induction l with
  | nil => intro _; rfl
  | cons a t ih =>
    intro h
    have ha := h a (List.mem_cons_self a t)
    simp only [findIdxO, ha]
    exact congrArg (fun o => if q a = true then some 0 else Option.map (· + 1) o)
      (ih (fun x hx => h x (List.mem_cons_of_mem a hx)))

theorem findIdxO_some {α : Type} (q : α → Bool) (d : α) :
    ∀ (l : List α) (i : ℕ), findIdxO q l = some i →
      i < l.length ∧ q (l.getD i d) = true := by
  intro l
  induction l with
  | nil => intro i h; simp [findIdxO] at h
  | cons a t ih =>
    intro i h
    simp only [findIdxO] at h
    by_cases hq : q a = true
    · rw [if_pos hq] at h
      injection h with h
      subst h
      exact ⟨Nat.succ_pos _, hq⟩
    · rw [if_neg hq] at h
      cases hft : findIdxO q t with
      | none => rw [hft] at h; exact absurd h (by simp)
      | some j =>
        rw [hft] at h
        injection h with h
        subst h
        obtain ⟨hj, hqj⟩ := ih j hft
        exact ⟨Nat.succ_lt_succ hj, hqj⟩

theorem findIdxO_isSome_of_mem {α : Type} (q : α → Bool) :
    ∀ (l : List α) (x : α), x ∈ l → q x = true → (findIdxO q l).isSome = true := by
  intro l
  induction l with
  | nil => intro x hx; cases hx
  | cons a t ih =>
    intro x hx hqx
    simp only [findIdxO]
    by_cases hq : q a = true
    · rw [if_pos hq]; rfl
    · rw [if_neg hq]
      rcases List.mem_cons.mp hx with rfl | hxt
      · exact absurd hqx hq
      · have hs := ih x hxt hqx
        cases hft : findIdxO q t with
        | none => rw [hft] at hs; exact absurd hs (by simp)
        | some j => rfl

theorem argminBy_mem (f : ℚ → ℚ) :
    ∀ (l : List ℚ) (v : ℚ), argminBy f l = some v → v ∈ l := by
  intro l
  induction l with
  | nil => intro v h; exact absurd h (by simp [argminBy])
  | cons x xs ih =>
    intro v h
    simp only [argminBy] at h
    cases hr : argminBy f xs with
    | none =>
      rw [hr] at h
      exact (Option.some.inj h) ▸ List.mem_cons_self x xs
    | some m =>
      rw [hr] at h
      have h2 : (if f m < f x then some m else some x) = some v := h
      by_cases hlt : f m < f x
      · rw [if_pos hlt] at h2
        exact List.mem_cons_of_mem x ((Option.some.inj h2) ▸ ih m hr)
      · rw [if_neg hlt] at h2
        exact (Option.some.inj h2) ▸ List.mem_cons_self x xs

theorem argminBy_le (f : ℚ → ℚ) :
    ∀ (l : List ℚ) (v : ℚ), argminBy f l = some v → ∀ y ∈ l, f v ≤ f y := by
  intro l
  induction l with
  | nil => intro v h; exact absurd h (by simp [argminBy])
  | cons x xs ih =>
    intro v h y hy
    simp only [argminBy] at h
    cases hr : argminBy f xs with
    | none =>
      rw [hr] at h
      have hxs : xs = [] := by
        cases xs with
        | nil => rfl
        | cons z zs =>
          exfalso
          simp only [argminBy] at hr
          cases hr2 : argminBy f zs with
          | none => rw [hr2] at hr; exact absurd hr (by simp)
          | some m =>
            rw [hr2] at hr
            have hr3 : (if f m < f z then some m else some z) = none := hr
            by_cases hlt : f m < f z
            · rw [if_pos hlt] at hr3; exact absurd hr3 (by simp)
            · rw [if_neg hlt] at hr3; exact absurd hr3 (by simp)
      subst hxs
      obtain rfl : x = v := Option.some.inj h
      rcases List.mem_cons.mp hy with rfl | hyt
      · exact le_refl _
      · cases hyt
    | some m =>
      rw [hr] at h
      have h2 : (if f m < f x then some m else some x) = some v := h
      by_cases hlt : f m < f x
      · rw [if_pos hlt] at h2
        obtain rfl : m = v := Option.some.inj h2
        rcases List.mem_cons.mp hy with rfl | hyt
        · exact le_of_lt hlt
        · exact ih _ hr y hyt
      · rw [if_neg hlt] at h2
        obtain rfl : x = v := Option.some.inj h2
        rcases List.mem_cons.mp hy with rfl | hyt
        · exact le_refl _
        · exact le_trans (not_lt.mp hlt) (ih m hr y hyt)

theorem argminBy_ne_none (f : ℚ → ℚ) :
    ∀ (l : List ℚ), l ≠ [] → ∃ v, argminBy f l = some v := by
  intro l hl
  cases hr : argminBy f l with
  | some v => exact ⟨v, rfl⟩
  | none =>
    exfalso
    cases l with
    | nil => exact hl rfl
    | cons x xs =>
      simp only [argminBy] at hr
      cases hr2 : argminBy f xs with
      | none => rw [hr2] at hr; exact absurd hr (by simp)
      | some m =>
        rw [hr2] at hr
        have hr3 : (if f m < f x then some m else some x) = none := hr
        by_cases hlt : f m < f x
        · rw [if_pos hlt] at hr3; exact absurd hr3 (by simp)
        · rw [if_neg hlt] at hr3; exact absurd hr3 (by simp)

theorem foldlMin_le_init : ∀ (xs : List ℚ) (x : ℚ), xs.foldl min x ≤ x := by
  intro xs
  induction xs with
  | nil => intro x; exact le_refl x
  | cons y ys ih =>
    intro x
    calc (y :: ys).foldl min x = ys.foldl min (min x y) := rfl
    _ ≤ min x y := ih (min x y)
    _ ≤ x := min_le_left x y

theorem foldlMin_le_mem :
    ∀ (xs : List ℚ) (x y : ℚ), y ∈ xs → xs.foldl min x ≤ y := by
  intro xs
  induction xs with
  | nil => intro x y hy; cases hy
  | cons z zs ih =>
    intro x y hy
    rcases List.mem_cons.mp hy with rfl | hyz
    · calc (y :: zs).foldl min x = zs.foldl min (min x y) := rfl
      _ ≤ min x y := foldlMin_le_init zs (min x y)
      _ ≤ y := min_le_right x y
    · exact ih (min x z) y hyz

theorem foldlMin_mem :
    ∀ (xs : List ℚ) (x : ℚ), xs.foldl min x = x ∨ xs.foldl min x ∈ xs := by
  intro xs
  induction xs with
  | nil => intro x; exact Or.inl rfl
  | cons y ys ih =>
    intro x
    have hstep : (y :: ys).foldl min x = ys.foldl min (min x y) := rfl
    rcases ih (min x y) with h | h
    · rcases min_choice x y with hc | hc
      · exact Or.inl (by rw [hstep, h, hc])
      · exact Or.inr (by rw [hstep, h, hc]; exact List.mem_cons_self y ys)
    · exact Or.inr (List.mem_cons_of_mem y (hstep ▸ h))

theorem npMin_mem : ∀ (l : List ℚ) (m : ℚ), npMin l = some m → m ∈ l := by
  intro l m h
  cases l with
  | nil => exact absurd h (by simp [npMin])
  | cons x xs =>
    obtain rfl : xs.foldl min x = m := Option.some.inj h
    rcases foldlMin_mem xs x with h2 | h2
    · rw [h2]; exact List.mem_cons_self x xs
    · exact List.mem_cons_of_mem x h2

theorem npMin_le : ∀ (l : List ℚ) (m : ℚ), npMin l = some m → ∀ y ∈ l, m ≤ y := by
  intro l m h y hy
  cases l with
  | nil => cases hy
  | cons x xs =>
    obtain rfl : xs.foldl min x = m := Option.some.inj h
    rcases List.mem_cons.mp hy with rfl | hyt
    · exact foldlMin_le_init xs y
    · exact foldlMin_le_mem xs x y hyt

/-- Core refinement lemma: searching the full array for the value picked
by `np.argmin` over the filtered array finds exactly the first index of a
filtered element whose `f`-value is minimal (`m` is that minimum). -/
theorem findIdxO_argmin_eq (p : ℚ → Bool) (f : ℚ → ℚ) (m : ℚ) :
    ∀ (l : List ℚ) (v : ℚ), argminBy f (l.filter p) = some v → f v = m →
      (∀ y ∈ l.filter p, m ≤ f y) →
      findIdxO (fun d => decide (d = v)) l =
        findIdxO (fun d => p d && decide (f d ≤ m)) l := by
  intro l
  induction l with
  | nil => intro v _ _ _; rfl
  | cons a t ih =>
    intro v hv hm hb
    by_cases hpa : p a = true
    · rw [List.filter_cons_of_pos hpa] at hv hb
      simp only [argminBy] at hv
      cases hr : argminBy f (t.filter p) with
      | none =>
        rw [hr] at hv
        obtain rfl : a = v := Option.some.inj hv
        simp only [findIdxO]
        rw [if_pos (by simp), if_pos (by simp [hpa, hm.le])]
      | some w =>
        rw [hr] at hv
        have hv2 : (if f w < f a then some w else some a) = some v := hv
        by_cases hlt : f w < f a
        · rw [if_pos hlt] at hv2
          obtain rfl : w = v := Option.some.inj hv2
          have hma : m < f a := hm ▸ hlt
          have hav : ¬ (a = w) := fun h => absurd (h ▸ hma) (by simp [hm])
          simp only [findIdxO]
          rw [if_neg (by simpa using hav),
            if_neg (by simp [not_le.mpr hma])]
          exact congrArg (Option.map (· + 1))
            (ih w hr hm (fun y hy => hb y (List.mem_cons_of_mem a hy)))
        · rw [if_neg hlt] at hv2
          obtain rfl : a = v := Option.some.inj hv2
          simp only [findIdxO]
          rw [if_pos (by simp), if_pos (by simp [hpa, hm.le])]
    · rw [List.filter_cons_of_neg hpa] at hv hb
      have hpv : p v = true := List.of_mem_filter (argminBy_mem f _ v hv)
      have hav : ¬ (a = v) := fun h => hpa (h ▸ hpv)
      simp only [findIdxO]
      rw [if_neg (by simpa using hav), if_neg (by simp [hpa])]
      exact congrArg (Option.map (· + 1)) (ih v hv hm hb)

/-- The source's median selection (np.argmin over valid, value matched
back into the full duration array) equals the spec's nearest-to-median,
first-occurrence selection, whenever at least one valid lap exists. -/
theorem selectMedianIdx_eq_spec (ds : List ℚ) (mt : ℚ)
    (hne : ds.filter (fun d => decide (mt < d)) ≠ []) :
    selectMedianIdx ds mt = specMedianIdx ds mt := by
  obtain ⟨v, hv⟩ := argminBy_ne_none
    (fun d => |d - npMedian (ds.filter (fun d => decide (mt < d)))|) _ hne
  have hvmem := argminBy_mem _ _ v hv
  have hvle := argminBy_le _ _ v hv
  simp only [selectMedianIdx, specMedianIdx, hv]
  rw [findIdxO_argmin_eq (fun d => decide (mt < d))
    (fun d => |d - npMedian (ds.filter (fun d => decide (mt < d)))|)
    (|v - npMedian (ds.filter (fun d => decide (mt < d)))|) ds v hv rfl hvle]
  apply findIdxO_congr
  intro x _
  by_cases hpx : decide (mt < x) = true
  · simp only [hpx, Bool.true_and]
    by_cases hxv :
        |x - npMedian (ds.filter (fun d => decide (mt < d)))| ≤
          |v - npMedian (ds.filter (fun d => decide (mt < d)))|
    · rw [decide_eq_true hxv]
      exact (List.all_eq_true.mpr (fun j hj =>
        decide_eq_true (le_trans hxv (hvle j hj)))).symm
    · rw [decide_eq_false hxv]
      have : ¬ ((ds.filter (fun d => decide (mt < d))).all
          (fun j => decide (|x - npMedian (ds.filter (fun d => decide (mt < d)))| ≤
            |j - npMedian (ds.filter (fun d => decide (mt < d)))|)) = true) := by
        intro hall
        exact hxv (of_decide_eq_true (List.all_eq_true.mp hall v hvmem))
      simp [this]
  · simp only [Bool.not_eq_true] at hpx
    simp [hpx]

/-- The source's fastest selection (np.min over valid, value matched back
into the full duration array) equals the spec's first-occurrence argmin
over valid candidates, whenever at least one valid lap exists. -/
theorem selectFastestIdx_eq_spec (ds : List ℚ) (mt : ℚ)
    (hne : ds.filter (fun d => decide (mt < d)) ≠ []) :
    selectFastestIdx ds mt = specFastestIdx ds mt := by
  cases hmin : npMin (ds.filter (fun d => decide (mt < d))) with
  | none =>
    exfalso
    cases hl : ds.filter (fun d => decide (mt < d)) with
    | nil => exact hne hl
    | cons x xs => rw [hl] at hmin; exact absurd hmin (by simp [npMin])
  | some fastest =>
    have hmem := npMin_mem _ fastest hmin
    have hle := npMin_le _ fastest hmin
    have hpf : decide (mt < fastest) = true := by
      simpa using List.of_mem_filter hmem
    simp only [selectFastestIdx, specFastestIdx, hmin]
    apply findIdxO_congr
    intro x hx
    by_cases hxf : x = fastest
    · subst hxf
      rw [decide_eq_true rfl]
      exact ((Bool.and_eq_true _ _).mpr ⟨hpf,
        List.all_eq_true.mpr (fun j hj => decide_eq_true (hle j hj))⟩).symm
    · rw [decide_eq_false hxf]
      by_cases hpx : decide (mt < x) = true
      · have hxmem : x ∈ ds.filter (fun d => decide (mt < d)) :=
          List.mem_filter.mpr ⟨hx, hpx⟩
        have : ¬ ((ds.filter (fun d => decide (mt < d))).all
            (fun j => decide (x ≤ j)) = true) := by
          intro hall
          exact hxf (le_antisymm
            (of_decide_eq_true (List.all_eq_true.mp hall fastest hmem))
            (hle x hxmem))
        simp [this, hpx]
      · simp only [Bool.not_eq_true] at hpx
        simp [hpx]

theorem lapDurations_length (cs : List ℚ) :
    (lapDurations cs).length = cs.length - 1 := by
  simp only [lapDurations, consecPairs, List.length_map, List.length_zip,
    List.length_tail]
  exact Nat.min_eq_right (Nat.sub_le cs.length 1)

/-- When a valid lap exists, the fastest selection finds an in-range index
whose duration is the selected (valid) value. -/
theorem selectFastestIdx_found (ds : List ℚ) (mt : ℚ)
    (hne : ds.filter (fun d => decide (mt < d)) ≠ []) :
    ∃ i, selectFastestIdx ds mt = some i ∧ i < ds.length ∧ mt < ds.getD i 0 := by
  cases hmin : npMin (ds.filter (fun d => decide (mt < d))) with
  | none =>
    exfalso
    cases hl : ds.filter (fun d => decide (mt < d)) with
    | nil => exact hne hl
    | cons x xs => rw [hl] at hmin; exact absurd hmin (by simp [npMin])
  | some fastest =>
    have hmem := npMin_mem _ fastest hmin
    have hpf : mt < fastest := by
      simpa using List.of_mem_filter hmem
    have hsel : selectFastestIdx ds mt =
        findIdxO (fun d => decide (d = fastest)) ds := by
      simp [selectFastestIdx, hmin]
    have hsome := findIdxO_isSome_of_mem (fun d => decide (d = fastest)) ds
      fastest (List.mem_of_mem_filter hmem) (decide_eq_true rfl)
    cases hidx : findIdxO (fun d => decide (d = fastest)) ds with
    | none => rw [hidx] at hsome; exact absurd hsome (by simp)
    | some i =>
      obtain ⟨hilen, hieq⟩ := findIdxO_some (fun d => decide (d = fastest)) 0 ds i hidx
      refine ⟨i, by rw [hsel, hidx], hilen, ?_⟩
      rw [of_decide_eq_true hieq]
      exact hpf

/-- When a valid lap exists, the median selection finds an in-range index
whose duration is the selected (valid) value. -/
theorem selectMedianIdx_found (ds : List ℚ) (mt : ℚ)
    (hne : ds.filter (fun d => decide (mt < d)) ≠ []) :
    ∃ i, selectMedianIdx ds mt = some i ∧ i < ds.length ∧ mt < ds.getD i 0 := by
  obtain ⟨v, hv⟩ := argminBy_ne_none
    (fun d => |d - npMedian (ds.filter (fun d => decide (mt < d)))|) _ hne
  have hvmem := argminBy_mem _ _ v hv
  have hpv : mt < v := by
    simpa using List.of_mem_filter hvmem
  have hsel : selectMedianIdx ds mt = findIdxO (fun d => decide (d = v)) ds := by
    simp [selectMedianIdx, hv]
  have hsome := findIdxO_isSome_of_mem (fun d => decide (d = v)) ds
    v (List.mem_of_mem_filter hvmem) (decide_eq_true rfl)
  cases hidx : findIdxO (fun d => decide (d = v)) ds with
  | none => rw [hidx] at hsome; exact absurd hsome (by simp)
  | some i =>
    obtain ⟨hilen, hieq⟩ := findIdxO_some (fun d => decide (d = v)) 0 ds i hidx
    refine ⟨i, by rw [hsel, hidx], hilen, ?_⟩
    rw [of_decide_eq_true hieq]
    exact hpv

/-! ## Claim C2 -/



/-- Claim C2 (counterexample): on a frame whose distance drops are exactly
−3000, the strict comparison `dist_diff < -3000` fires on neither reset:
no crossing is detected, the segmenter reports insufficient data, and no
`(100, 165)` interval is produced — contrary to the claim. -/
theorem c2_threshold_counterexample :
    crossingTimes c2FrameExact (-3000) = [] ∧
    ghostInterval c2FrameExact (-3000) 60 = .error .insufficientData ∧
    lapIntervals c2FrameExact (-3000) 60 = [] ∧
    ¬ ghostInterval c2FrameExact (-3000) 60 = .ok (100, 165) := by
  refine ⟨by with_unfolding_all rfl, by with_unfolding_all rfl,
    by with_unfolding_all rfl, ?_⟩
  rw [show ghostInterval c2FrameExact (-3000) 60 =
    Except.error LapError.insufficientData from by with_unfolding_all rfl]
  simp

/-- Claim C2 (amended): a crossing is detected only when the distance drop
strictly exceeds 3000; on the same scenario with resets of 3001 → 0 the
segmenter detects both crossings (t = 100 and t = 165) and yields exactly
one valid lap interval (100, 165) of duration 65. -/
theorem c2_threshold_amended :
    crossingTimes c2FrameStrict (-3000) = [100, 165] ∧
    lapDurations (crossingTimes c2FrameStrict (-3000)) = [65] ∧
    lapIntervals c2FrameStrict (-3000) 60 = [(100, 165)] ∧
    ghostInterval c2FrameStrict (-3000) 60 = .ok (100, 165) := by
  refine ⟨by with_unfolding_all rfl, by with_unfolding_all rfl,
    by with_unfolding_all rfl, by with_unfolding_all rfl⟩

/-! ## Claim C3 -/

/-- Claim C3: whenever at least one valid lap exists, the representative
("average") selection returns the valid candidate whose duration is
nearest the median of the valid durations, ties broken by first occurrence
in the duration array; in particular, for durations
[60.1, 65.0, 70.2, 300.0] with min_lap_time = 60 the selected index is 1,
whose duration is 65.0. -/
theorem c3_median_selection :
    (∀ (ds : List ℚ) (mt : ℚ), ds.filter (fun d => decide (mt < d)) ≠ [] →
      selectMedianIdx ds mt = specMedianIdx ds mt) ∧
    selectMedianIdx [601/10, 65, 702/10, 300] 60 = some 1 ∧
    ([601/10, 65, 702/10, 300] : List ℚ).getD 1 0 = 65 := by
  exact ⟨selectMedianIdx_eq_spec, by with_unfolding_all rfl,
    by with_unfolding_all rfl⟩

theorem c3_median_selection_witness :
    selectMedianIdx [601/10, 65, 702/10, 300] 60 =
      specMedianIdx [601/10, 65, 702/10, 300] 60 :=
  c3_median_selection.1 [601/10, 65, 702/10, 300] 60
    (of_decide_eq_true (by with_unfolding_all rfl))

/-! ## Claim C10 -/

/-- Claim C10: whenever at least two crossings and one valid duration
exist, the equality search mapping the selected valid duration back to its
index in the full duration array always finds an index, that index plus
one is in bounds of the crossing array, and the matched duration itself
exceeds min_lap_time (it cannot be a rejected short lap) — for both the
fastest and the median selection. -/
theorem c10_selection_safety (cs : List ℚ) (mt : ℚ) (_hlen : 2 ≤ cs.length)
    (hne : (lapDurations cs).filter (fun d => decide (mt < d)) ≠ []) :
    (∃ i, selectFastestIdx (lapDurations cs) mt = some i ∧ i + 1 < cs.length ∧
      mt < (lapDurations cs).getD i 0) ∧
    (∃ i, selectMedianIdx (lapDurations cs) mt = some i ∧ i + 1 < cs.length ∧
      mt < (lapDurations cs).getD i 0) := by
  have hb : ∀ i, i < (lapDurations cs).length → i + 1 < cs.length := by
    intro i hi
    rw [lapDurations_length] at hi
    exact Nat.add_lt_of_lt_sub hi
  obtain ⟨i, hsel, hlt, hval⟩ := selectFastestIdx_found (lapDurations cs) mt hne
  obtain ⟨j, hselm, hltm, hvalm⟩ := selectMedianIdx_found (lapDurations cs) mt hne
  exact ⟨⟨i, hsel, hb i hlt, hval⟩, ⟨j, hselm, hb j hltm, hvalm⟩⟩

theorem c10_selection_safety_witness :
    (∃ i, selectFastestIdx (lapDurations [0, 100, 165]) 60 = some i ∧
      i + 1 < ([0, 100, 165] : List ℚ).length ∧
      60 < (lapDurations [0, 100, 165]).getD i 0) ∧
    (∃ i, selectMedianIdx (lapDurations [0, 100, 165]) 60 = some i ∧
      i + 1 < ([0, 100, 165] : List ℚ).length ∧
      60 < (lapDurations [0, 100, 165]).getD i 0) :=
  c10_selection_safety [0, 100, 165] 60
    (of_decide_eq_true (by with_unfolding_all rfl))
    (of_decide_eq_true (by with_unfolding_all rfl))

/-! ## Claim C4 -/

theorem listMean_perm (l1 l2 : List ℚ) (h : l1.Perm l2) :
    listMean l1 = listMean l2 := by
  unfold listMean
  by_cases h1 : l1 = []
  · subst h1
    rw [h.symm.eq_nil]
  · have h2 : l2 ≠ [] := fun he => h1 (List.Perm.eq_nil (he ▸ h))
    rw [if_neg h1, if_neg h2, h.sum_eq, h.length_eq]

theorem all_congr_mem {α : Type} (f g : α → Bool) :
    ∀ l : List α, (∀ x ∈ l, f x = g x) → l.all f = l.all g := by
  intro l
  induction l with
  | nil => intro _; rfl
  | cons a t ih =>
    intro h
    simp only [List.all_cons, h a (List.mem_cons_self a t),
      ih (fun x hx => h x (List.mem_cons_of_mem a hx))]

theorem perm_any {α : Type} (l1 l2 : List α) (h : l1.Perm l2) (f : α → Bool) :
    l1.any f = l2.any f := by
  cases ha : l2.any f with
  | true =>
    obtain ⟨x, hx, hfx⟩ := List.any_eq_true.mp ha
    exact List.any_eq_true.mpr ⟨x, h.mem_iff.mpr hx, hfx⟩
  | false =>
    rw [← Bool.not_eq_true]
    intro hb
    obtain ⟨x, hx, hfx⟩ := List.any_eq_true.mp hb
    have : l2.any f = true := List.any_eq_true.mpr ⟨x, h.mem_iff.mp hx, hfx⟩
    rw [ha] at this
    exact absurd this (by simp)

theorem pivotFrame_perm (l1 l2 : List Raw) (h : l1.Perm l2) :
    pivotFrame l1 = pivotFrame l2 := by
  unfold pivotFrame
  have hp : ((l1.map Raw.t).dedup).Perm ((l2.map Raw.t).dedup) :=
    (h.map Raw.t).dedup
  have hkeys : List.insertionSort (· ≤ ·) (l1.map Raw.t).dedup =
      List.insertionSort (· ≤ ·) (l2.map Raw.t).dedup :=
    List.eq_of_perm_of_sorted
      ((List.perm_insertionSort _ _).trans (hp.trans (List.perm_insertionSort _ _).symm))
      (List.sorted_insertionSort _ _) (List.sorted_insertionSort _ _)
  rw [hkeys]
  apply List.map_congr_left
  intro k _
  have hmean : meanDist l1 k = meanDist l2 k := by
    unfold meanDist
    exact listMean_perm _ _ ((h.filter _).map Raw.v)
  rw [hmean]

theorem normalizeFrame_perm (pOk : ℚ → Bool) (l1 l2 : List Raw) (h : l1.Perm l2) :
    normalizeFrame pOk l1 = normalizeFrame pOk l2 := by
  unfold normalizeFrame
  rw [pivotFrame_perm l1 l2 h]
  have hany : ∀ c, l1.any (fun r => r.ch == c) = l2.any (fun r => r.ch == c) :=
    fun c => perm_any l1 l2 h _
  have hall : telemetryCols.all (fun c => l1.any (fun r => r.ch == c)) =
      telemetryCols.all (fun c => l2.any (fun r => r.ch == c)) :=
    all_congr_mem _ _ telemetryCols (fun c _ => hany c)
  rw [hall]

/-- Claim C4: fastest-lap selection equals the spec's argmin over valid
durations with first-occurrence tie-break, and the full ghost-lap pipeline
is invariant under reordering of the raw input samples (which are
re-sorted during normalisation). -/
theorem c4_fastest_selection :
    (∀ (ds : List ℚ) (mt : ℚ), ds.filter (fun d => decide (mt < d)) ≠ [] →
      selectFastestIdx ds mt = specFastestIdx ds mt) ∧
    (∀ (pOk : ℚ → Bool) (l1 l2 : List Raw) (th mt : ℚ), l1.Perm l2 →
      findGhostLapE pOk l1 th mt = findGhostLapE pOk l2 th mt) := by
  constructor
  · exact selectFastestIdx_eq_spec
  · intro pOk l1 l2 th mt h
    unfold findGhostLapE
    rw [normalizeFrame_perm pOk l1 l2 h]


theorem c4_fastest_selection_witness :
    selectFastestIdx [61, 30, 70] 60 = specFastestIdx [61, 30, 70] 60 ∧
    findGhostLapE (fun _ => true) rawAllCh (-3000) 60 =
      findGhostLapE (fun _ => true) rawAllCh.reverse (-3000) 60 :=
  ⟨c4_fastest_selection.1 [61, 30, 70] 60
      (of_decide_eq_true (by with_unfolding_all rfl)),
   c4_fastest_selection.2 (fun _ => true) rawAllCh rawAllCh.reverse (-3000) 60
      (List.reverse_perm rawAllCh).symm⟩

/-! ## Claim C7 -/




/-- Claim C7 (code bug): the claim — and the Normalizer contract — says a
malformed-timestamp row is discarded while the remaining rows proceed to
lap detection. In the code, `timestamp_dt.astype(int)` raises on the `NaT`
produced by `errors='coerce'`, the blanket handler catches it, and the
whole extraction aborts: with the malformed row present the pipeline
returns the data error instead of the frame `[(0, 100), (2, 50)]` that the
same stream yields once the malformed row is removed. -/
theorem c7_malformed_timestamp_bug :
    normalizeFrame pOkC7 rawC7bad = .error .dataError ∧
    findGhostLapE pOkC7 rawC7bad (-3000) 60 = .error .dataError ∧
    normalizeFrame pOkC7 rawC7good = .ok [(0, 100), (2, 50)] := by
  refine ⟨by with_unfolding_all rfl, by with_unfolding_all rfl,
    by with_unfolding_all rfl⟩

/-! ## Claim C8 -/

/-- Claim C8: once normalisation succeeds, fewer than two detected
crossings make both extraction scripts fail with the insufficient-data
error, and two-or-more crossings with no valid duration make both fail
with the no-valid-lap error; in each case the result carries no lap
record (the `ghost_lap.csv` / `live_lap.csv` write happens only on the
`.ok` path). -/
theorem c8_error_taxonomy (pOk : ℚ → Bool) (l : List Raw) (th mt : ℚ)
    (frame : List (ℚ × ℚ)) (hn : normalizeFrame pOk l = .ok frame) :
    ((crossingTimes frame th).length < 2 →
      findGhostLapE pOk l th mt = .error .insufficientData ∧
      findMedianLapE pOk l th mt = .error .insufficientData) ∧
    (2 ≤ (crossingTimes frame th).length →
      (lapDurations (crossingTimes frame th)).filter (fun d => decide (mt < d)) = [] →
      findGhostLapE pOk l th mt = .error .noValidLap ∧
      findMedianLapE pOk l th mt = .error .noValidLap) := by
  unfold findGhostLapE findMedianLapE
  rw [hn]
  constructor
  · intro hlt
    constructor
    · simp only [ghostInterval]
      rw [if_pos hlt]
    · simp only [medianInterval]
      rw [if_pos hlt]
  · intro hge hempty
    have hnot : ¬ (crossingTimes frame th).length < 2 := not_lt.mpr hge
    constructor
    · simp only [ghostInterval]
      rw [if_neg hnot, if_pos hempty]
    · simp only [medianInterval]
      rw [if_neg hnot, if_pos hempty]


theorem c8_error_taxonomy_witness :
    (findGhostLapE (fun _ => true) rawAllCh (-3000) 60 = .error .insufficientData ∧
     findMedianLapE (fun _ => true) rawAllCh (-3000) 60 = .error .insufficientData) ∧
    (findGhostLapE (fun _ => true) rawShortLaps (-3000) 60 = .error .noValidLap ∧
     findMedianLapE (fun _ => true) rawShortLaps (-3000) 60 = .error .noValidLap) :=
  ⟨(c8_error_taxonomy _ rawAllCh _ _ [(0, 100)] (by with_unfolding_all rfl)).1
      (of_decide_eq_true (by with_unfolding_all rfl)),
   (c8_error_taxonomy _ rawShortLaps _ _
      [(0, 100), (10, 5000), (20, 100), (30, 5000), (40, 100)]
      (by with_unfolding_all rfl)).2
      (of_decide_eq_true (by with_unfolding_all rfl))
      (by with_unfolding_all rfl)⟩

/-! ## Claim C5 -/

theorem filterMap_ite {α β : Type} (P : α → Prop) [DecidablePred P] (f : α → β) :
    ∀ l : List α, l.filterMap (fun a => if P a then some (f a) else none) =
      (l.filter (fun a => decide (P a))).map f := by
  intro l
  induction l with
  | nil => rfl
  | cons a t ih =>
    by_cases hp : P a
    · simp [List.filterMap_cons, List.filter_cons, hp, ih]
    · simp [List.filterMap_cons, List.filter_cons, hp, ih]

theorem ffillRows_map_fst :
    ∀ (rows : List (ℚ × Option ℚ)) (acc : Option ℚ),
      (ffillRows acc rows).map Prod.fst = rows.map Prod.fst := by
  intro rows
  induction rows with
  | nil => intro acc; rfl
  | cons r rest ih =>
    intro acc
    obtain ⟨t, v⟩ := r
    cases v with
    | some a => simp only [ffillRows, List.map_cons, ih]
    | none => simp only [ffillRows, List.map_cons, ih]

theorem dropNone_fst_sublist :
    ∀ rows : List (ℚ × Option ℚ),
      ((dropNone rows).map Prod.fst).Sublist (rows.map Prod.fst) := by
  intro rows
  induction rows with
  | nil => exact List.Sublist.refl _
  | cons r rest ih =>
    obtain ⟨t, v⟩ := r
    cases v with
    | some a =>
      simp only [dropNone, List.filterMap_cons, Option.map_some, List.map_cons]
      exact List.Sublist.cons₂ t ih
    | none =>
      simp only [dropNone, List.filterMap_cons, Option.map_none, List.map_cons]
      exact List.Sublist.cons t ih

theorem pivotFrame_fst_pairwise (l : List Raw) :
    ((pivotFrame l).map Prod.fst).Pairwise (· < ·) := by
  have hmap : (pivotFrame l).map Prod.fst =
      List.insertionSort (· ≤ ·) (l.map Raw.t).dedup := by
    unfold pivotFrame
    rw [List.map_map]
    exact List.map_id _
  rw [hmap]
  have hsorted : (List.insertionSort (· ≤ ·) (l.map Raw.t).dedup).Pairwise (· ≤ ·) :=
    List.sorted_insertionSort _ _
  have hnodup : (List.insertionSort (· ≤ ·) (l.map Raw.t).dedup).Nodup :=
    (List.perm_insertionSort _ _).nodup_iff.mpr (List.nodup_dedup _)
  exact (hsorted.and hnodup).imp (fun h => lt_of_le_of_ne h.1 h.2)

theorem normalizeFrameP3_ok (pOk : ℚ → Bool) (l : List Raw)
    (frame : List (ℚ × ℚ)) (h : normalizeFrameP3 pOk l = .ok frame) :
    frame = dropNone (ffillRows none (pivotFrame l)) := by
  unfold normalizeFrameP3 at h
  by_cases h1 : ((pivotFrame l).all (fun r => pOk r.1)) = false
  · rw [if_pos h1] at h
    exact Except.noConfusion h
  · rw [if_neg h1] at h
    by_cases h2 : (l.any fun r => r.ch == 0) = false
    · rw [if_pos h2] at h
      exact Except.noConfusion h
    · rw [if_neg h2] at h
      exact (Except.ok.inj h).symm

theorem frameP3_fst_pairwise (pOk : ℚ → Bool) (l : List Raw)
    (frame : List (ℚ × ℚ)) (h : normalizeFrameP3 pOk l = .ok frame) :
    (frame.map Prod.fst).Pairwise (· < ·) := by
  rw [normalizeFrameP3_ok pOk l frame h]
  exact (pivotFrame_fst_pairwise l).sublist
    (by
      have hd := dropNone_fst_sublist (ffillRows none (pivotFrame l))
      rwa [ffillRows_map_fst] at hd)

theorem zip_cons_tail_snd {α : Type} :
    ∀ (t : List α) (a : α), ((a :: t).zip t).map Prod.snd = t := by
  intro t
  induction t with
  | nil => intro a; rfl
  | cons b t2 ih =>
    intro a
    simp only [List.zip_cons_cons, List.map_cons, ih b]

theorem consecPairs_map_snd {α : Type} (l : List α) :
    (consecPairs l).map Prod.snd = l.tail := by
  cases l with
  | nil => rfl
  | cons a t => exact zip_cons_tail_snd t a

theorem crossingTimes_sublist (frame : List (ℚ × ℚ)) (th : ℚ) :
    (crossingTimes frame th).Sublist (frame.map Prod.fst) := by
  have he : crossingTimes frame th =
      (((consecPairs frame).filter
        (fun p => decide (p.2.2 - p.1.2 < th))).map Prod.snd).map Prod.fst := by
    unfold crossingTimes
    rw [filterMap_ite (fun p : (ℚ × ℚ) × (ℚ × ℚ) => p.2.2 - p.1.2 < th)
      (fun p => p.2.1)]
    rw [List.map_map]
    rfl
  rw [he]
  have h1 : (((consecPairs frame).filter
      (fun p => decide (p.2.2 - p.1.2 < th))).map Prod.snd).Sublist
      ((consecPairs frame).map Prod.snd) :=
    List.Sublist.map Prod.snd (List.filter_sublist _)
  rw [consecPairs_map_snd] at h1
  have h2 : ((((consecPairs frame).filter
      (fun p => decide (p.2.2 - p.1.2 < th))).map Prod.snd).map Prod.fst).Sublist
      (frame.tail.map Prod.fst) := List.Sublist.map Prod.fst h1
  refine h2.trans ?_
  exact List.Sublist.map Prod.fst (List.tail_sublist frame)

theorem consecPairs_mem_lt (cs : List ℚ) (h : cs.Pairwise (· < ·)) :
    ∀ p ∈ consecPairs cs, p.1 < p.2 := by
  induction cs with
  | nil => intro p hp; cases hp
  | cons a t ih =>
    intro p hp
    cases t with
    | nil => cases hp
    | cons b t2 =>
      rw [show consecPairs (a :: b :: t2) = (a, b) :: consecPairs (b :: t2) from rfl]
        at hp
      rcases List.mem_cons.mp hp with rfl | hp2
      · exact (List.pairwise_cons.mp h).1 b (List.mem_cons_self b t2)
      · exact ih (List.pairwise_cons.mp h).2 p hp2

theorem consecPairs_pairwise (cs : List ℚ) (h : cs.Pairwise (· < ·)) :
    (consecPairs cs).Pairwise (fun p q : ℚ × ℚ => p.2 ≤ q.1) := by
  induction cs with
  | nil => exact List.Pairwise.nil
  | cons a t ih =>
    cases t with
    | nil => exact List.Pairwise.nil
    | cons b t2 =>
      rw [show consecPairs (a :: b :: t2) = (a, b) :: consecPairs (b :: t2) from rfl]
      refine List.pairwise_cons.mpr ⟨?_, ih (List.pairwise_cons.mp h).2⟩
      intro q hq
      have hq1 : q.1 ∈ b :: t2 := by
        obtain ⟨x, y⟩ := q
        exact (List.of_mem_zip hq).1
      rcases List.mem_cons.mp hq1 with he | hmem
      · exact le_of_eq he.symm
      · exact le_of_lt ((List.pairwise_cons.mp (List.pairwise_cons.mp h).2).1 _ hmem)

/-- Claim C5: for every raw stream, reset threshold and minimum lap
duration, the lap intervals emitted by the Post-Event segmentation all
have duration strictly above the minimum, have start strictly before end,
and are strictly time-ordered with pairwise-disjoint half-open spans
(`end_i ≤ start_j` for `i < j`). -/
theorem c5_interval_invariants (pOk : ℚ → Bool) (l : List Raw) (th mt : ℚ)
    (ivs : List (ℚ × ℚ)) (h : loadAllLapData pOk l th mt = .ok ivs) :
    (∀ iv ∈ ivs, mt < iv.2 - iv.1 ∧ iv.1 < iv.2) ∧
    ivs.Pairwise (fun I J => I.1 < J.1 ∧ I.2 ≤ J.1) := by
  unfold loadAllLapData at h
  cases hn : normalizeFrameP3 pOk l with
  | error e => rw [hn] at h; exact Except.noConfusion h
  | ok frame =>
    rw [hn] at h
    obtain rfl : lapIntervals frame th mt = ivs := Except.ok.inj h
    have hframe := frameP3_fst_pairwise pOk l frame hn
    have hcs : (crossingTimes frame th).Pairwise (· < ·) :=
      hframe.sublist (crossingTimes_sublist frame th)
    have hivs : lapIntervals frame th mt =
        ((consecPairs (crossingTimes frame th)).filter
          (fun p => decide (mt < p.2 - p.1))).map id := by
      unfold lapIntervals
      exact filterMap_ite (fun p : ℚ × ℚ => mt < p.2 - p.1) id _
    constructor
    · intro iv hiv
      rw [hivs, List.map_id] at hiv
      have hmem := List.mem_of_mem_filter hiv
      have hcond : mt < iv.2 - iv.1 := by simpa using List.of_mem_filter hiv
      exact ⟨hcond, consecPairs_mem_lt _ hcs iv hmem⟩
    · rw [hivs, List.map_id]
      have hpair := (consecPairs_pairwise _ hcs).filter
        (fun p => decide (mt < p.2 - p.1))
      refine List.Pairwise.imp_of_mem ?_ hpair
      intro p q hp _ hle
      have hlt : p.1 < p.2 :=
        consecPairs_mem_lt _ hcs p (List.mem_of_mem_filter hp)
      exact ⟨lt_of_lt_of_le hlt hle, hle⟩


theorem c5_interval_invariants_witness :
    (∀ iv ∈ ([((100 : ℚ), (165 : ℚ))] : List (ℚ × ℚ)),
      (60 : ℚ) < iv.2 - iv.1 ∧ iv.1 < iv.2) ∧
    ([((100 : ℚ), (165 : ℚ))] : List (ℚ × ℚ)).Pairwise
      (fun I J => I.1 < J.1 ∧ I.2 ≤ J.1) :=
  c5_interval_invariants (fun _ => true) rawC5 (-3000) 60 [(100, 165)]
    (by with_unfolding_all rfl)

/-! ## Claim C6 -/

theorem arangeGrid_pairwise (stop : ℚ) : (arangeGrid stop).Pairwise (· < ·) := by
  unfold arangeGrid
  refine List.Pairwise.map _ ?_ (List.pairwise_lt_range _)
  intro i j hij
  have hc : (i : ℚ) < (j : ℚ) := by exact_mod_cast hij
  linarith

theorem arangeGrid_mem (stop : ℚ) : ∀ t ∈ arangeGrid stop, 0 ≤ t ∧ t < stop := by
  intro t ht
  unfold arangeGrid at ht
  obtain ⟨i, hi, rfl⟩ := List.mem_map.mp ht
  have hin : i < Nat.ceil (stop * 100) := List.mem_range.mp hi
  have h1 : (i : ℚ) < stop * 100 := Nat.lt_ceil.mp hin
  constructor
  · positivity
  · linarith

theorem ffillAux_length {α : Type} :
    ∀ (l : List (Option α)) (acc : Option α), (ffillAux acc l).length = l.length := by
  intro l
  induction l with
  | nil => intro acc; rfl
  | cons x xs ih =>
    intro acc
    cases x with
    | some a => simp only [ffillAux, List.length_cons, ih]
    | none => simp only [ffillAux, List.length_cons, ih]

theorem resampleChannel_length (ch : List (ℚ × Option ℚ)) (grid : List ℚ) :
    (resampleChannel ch grid).length = grid.length := by
  unfold resampleChannel bfillO ffillO
  rw [List.length_reverse, ffillAux_length, List.length_reverse,
    ffillAux_length, List.length_map]

theorem ffillAux_some_all {α : Type} :
    ∀ (l : List (Option α)) (a : α) (y : Option α),
      y ∈ ffillAux (some a) l → y.isSome = true := by
  intro l
  induction l with
  | nil => intro a y hy; cases hy
  | cons x xs ih =>
    intro a y hy
    cases x with
    | some b =>
      rcases List.mem_cons.mp hy with rfl | hy2
      · rfl
      · exact ih b y hy2
    | none =>
      rcases List.mem_cons.mp hy with rfl | hy2
      · rfl
      · exact ih a y hy2

theorem ffillAux_getLast_some {α : Type} :
    ∀ (l : List (Option α)) (acc : Option α), l ≠ [] →
      ((∃ x ∈ l, x.isSome = true) ∨ acc.isSome = true) →
      ∃ b : α, (ffillAux acc l).getLast? = some (some b) := by
  intro l
  induction l with
  | nil => intro acc hne _; exact absurd rfl hne
  | cons x xs ih =>
    intro acc _ hyp
    cases hxs : xs with
    | nil =>
      subst hxs
      cases x with
      | some a => exact ⟨a, rfl⟩
      | none =>
        have hacc : acc.isSome = true := by
          rcases hyp with ⟨z, hz, hzs⟩ | h2
          · rcases List.mem_cons.mp hz with rfl | hz2
            · exact absurd hzs (by simp)
            · cases hz2
          · exact h2
        obtain ⟨b, rfl⟩ := Option.isSome_iff_exists.mp hacc
        exact ⟨b, rfl⟩
    | cons z zs =>
      subst hxs
      have hxsne : (z :: zs) ≠ [] := by simp
      have hcons : ∀ (w : Option α) (acc2 : Option α),
          (ffillAux acc2 (z :: zs)) ≠ [] →
          (w :: ffillAux acc2 (z :: zs)).getLast? = (ffillAux acc2 (z :: zs)).getLast? := by
        intro w acc2 hne2
        cases hf : ffillAux acc2 (z :: zs) with
        | nil => exact absurd hf hne2
        | cons u us => simp [List.getLast?_cons_cons]
      have hfne : ∀ acc2 : Option α, ffillAux acc2 (z :: zs) ≠ [] := by
        intro acc2 hcontra
        have := ffillAux_length (z :: zs) acc2
        rw [hcontra] at this
        simp at this
      cases x with
      | some a =>
        rw [show ffillAux acc (some a :: z :: zs) =
          some a :: ffillAux (some a) (z :: zs) from rfl]
        rw [hcons (some a) (some a) (hfne _)]
        exact ih (some a) hxsne (Or.inr rfl)
      | none =>
        rw [show ffillAux acc (none :: z :: zs) =
          acc :: ffillAux acc (z :: zs) from rfl]
        rw [hcons acc acc (hfne _)]
        refine ih acc hxsne ?_
        rcases hyp with ⟨w, hw, hws⟩ | h2
        · rcases List.mem_cons.mp hw with rfl | hw2
          · exact absurd hws (by simp)
          · exact Or.inl ⟨w, hw2, hws⟩
        · exact Or.inr h2

theorem bfill_ffill_all_some {α : Type} (l : List (Option α))
    (h : ∃ x ∈ l, x.isSome = true) :
    ∀ y ∈ bfillO (ffillO l), y.isSome = true := by
  intro y hy
  unfold bfillO at hy
  rw [List.mem_reverse] at hy
  obtain ⟨x, hx, hxs⟩ := h
  have hlne : l ≠ [] := List.ne_nil_of_mem hx
  obtain ⟨b, hlast⟩ := ffillAux_getLast_some l none hlne (Or.inl ⟨x, hx, hxs⟩)
  have hrev : (ffillO l).reverse.head? = some (some b) := by
    rw [List.head?_reverse]; exact hlast
  cases hrv : (ffillO l).reverse with
  | nil => rw [hrv] at hrev; exact absurd hrev (by simp)
  | cons z rest =>
    rw [hrv] at hrev hy
    obtain rfl : z = some b := by simpa using hrev
    rw [show ffillAux none (some b :: rest) =
      some b :: ffillAux (some b) rest from rfl] at hy
    rcases List.mem_cons.mp hy with rfl | hy2
    · rfl
    · exact ffillAux_some_all rest b y hy2

theorem ffillAux_none_all {α : Type} :
    ∀ l : List (Option α), (∀ x ∈ l, x = none) →
      ∀ y ∈ ffillAux (none : Option α) l, y = none := by
  intro l
  induction l with
  | nil => intro _ y hy; cases hy
  | cons x xs ih =>
    intro h y hy
    have hx : x = none := h x (List.mem_cons_self x xs)
    subst hx
    rcases List.mem_cons.mp hy with rfl | hy2
    · rfl
    · exact ih (fun z hz => h z (List.mem_cons_of_mem _ hz)) y hy2

theorem bfill_ffill_all_none {α : Type} (l : List (Option α))
    (h : ∀ x ∈ l, x = none) : ∀ y ∈ bfillO (ffillO l), y = none := by
  intro y hy
  unfold bfillO at hy
  rw [List.mem_reverse] at hy
  refine ffillAux_none_all (ffillO l).reverse ?_ y hy
  intro z hz
  rw [List.mem_reverse] at hz
  exact ffillAux_none_all l h z hz

theorem interpAt_isSome (vs : List (ℚ × ℚ)) (t : ℚ)
    (h : ∃ p ∈ vs, p.1 ≤ t) : (interpAt vs t).isSome = true := by
  obtain ⟨p, hp, hle⟩ := h
  have hmem : p ∈ vs.filter (fun q => q.1 ≤ t) :=
    List.mem_filter.mpr ⟨hp, decide_eq_true hle⟩
  have hne : vs.filter (fun q => q.1 ≤ t) ≠ [] := List.ne_nil_of_mem hmem
  unfold interpAt
  cases hlast : (vs.filter (fun q => q.1 ≤ t)).getLast? with
  | none => exact absurd (List.getLast?_eq_none_iff.mp hlast) hne
  | some p1 =>
    cases hfind : vs.find? (fun q => t < q.1) with
    | none => rfl
    | some p2 => rfl

theorem sortedValids_mem (ch : List (ℚ × Option ℚ)) (t : ℚ) (v : ℚ)
    (h : (t, some v) ∈ ch) : (t, v) ∈ sortedValids ch := by
  unfold sortedValids
  rw [(List.perm_insertionSort _ _).mem_iff]
  exact List.mem_filterMap.mpr ⟨(t, some v), h, rfl⟩

theorem resample_all_some (ch : List (ℚ × Option ℚ)) (grid : List ℚ)
    (h : ∃ gp ∈ grid, ∃ p ∈ ch, p.2.isSome = true ∧ p.1 ≤ gp) :
    ∀ y ∈ resampleChannel ch grid, y.isSome = true := by
  obtain ⟨gp, hgp, p, hp, hps, hple⟩ := h
  obtain ⟨v, hv⟩ := Option.isSome_iff_exists.mp hps
  have hmem : (p.1, v) ∈ sortedValids ch := by
    refine sortedValids_mem ch p.1 v ?_
    have : p = (p.1, some v) := by
      obtain ⟨a, b⟩ := p
      simp only at hv
      rw [hv]
    rwa [this] at hp
  have hsome : (interpAt (sortedValids ch) gp).isSome = true :=
    interpAt_isSome _ gp ⟨(p.1, v), hmem, hple⟩
  unfold resampleChannel
  refine bfill_ffill_all_some _ ⟨interpAt (sortedValids ch) gp, ?_, hsome⟩
  exact List.mem_map.mpr ⟨gp, hgp, rfl⟩

theorem resample_all_none (ch : List (ℚ × Option ℚ)) (grid : List ℚ)
    (h : ∀ p ∈ ch, p.2 = none) : ∀ y ∈ resampleChannel ch grid, y = none := by
  have hvalids : sortedValids ch = [] := by
    unfold sortedValids
    rw [show ch.filterMap (fun p => p.2.map (fun v => (p.1, v))) = [] from ?_]
    · rfl
    · rw [List.filterMap_eq_nil_iff]
      intro p hp
      rw [h p hp]
      rfl
  have hinterp : ∀ t, interpAt (sortedValids ch) t = none := by
    intro t
    rw [hvalids]
    rfl
  unfold resampleChannel
  refine bfill_ffill_all_none _ ?_
  intro x hx
  obtain ⟨t, _, rfl⟩ := List.mem_map.mp hx
  exact hinterp t

/-- Claim C6 (amended): for any two non-empty lap records, both resampled
outputs live on the single shared grid `alignGrid`, which is strictly
increasing, spans `[0, max(ghost duration, live duration))` in fixed
0.01 steps, and gives both outputs the same length; after the
forward/backward fill a channel is defined at every grid point provided
the record observed it at or before some grid point, and a channel with
no such observation (in particular one never observed at all) stays an
all-NaN column rather than causing failure. -/
theorem c6_alignment_amended (g l : List (ℚ × Option ℚ))
    (_hg : g ≠ []) (_hl : l ≠ []) :
    (alignGrid g l).Pairwise (· < ·) ∧
    (∀ t ∈ alignGrid g l, 0 ≤ t ∧
      t < max (recordDuration g) (recordDuration l)) ∧
    (resampleChannel g (alignGrid g l)).length = (alignGrid g l).length ∧
    (resampleChannel l (alignGrid g l)).length = (alignGrid g l).length ∧
    ((∃ gp ∈ alignGrid g l, ∃ p ∈ g, p.2.isSome = true ∧ p.1 ≤ gp) →
      ∀ y ∈ resampleChannel g (alignGrid g l), y.isSome = true) ∧
    ((∃ gp ∈ alignGrid g l, ∃ p ∈ l, p.2.isSome = true ∧ p.1 ≤ gp) →
      ∀ y ∈ resampleChannel l (alignGrid g l), y.isSome = true) ∧
    ((∀ p ∈ g, p.2 = none) → ∀ y ∈ resampleChannel g (alignGrid g l), y = none) ∧
    ((∀ p ∈ l, p.2 = none) → ∀ y ∈ resampleChannel l (alignGrid g l), y = none) :=
  ⟨arangeGrid_pairwise _,
   arangeGrid_mem _,
   resampleChannel_length g _,
   resampleChannel_length l _,
   resample_all_some g _,
   resample_all_some l _,
   resample_all_none g _,
   resample_all_none l _⟩



/-- Claim C6 (counterexample): the ghost record does observe its channel
(at t = 0.02, its own duration, which the half-open grid `[0, 0.02)`
excludes), yet the resampled column is all-NaN: interpolation never fills
before the first observation and the final `bfill` finds no defined grid
cell to copy. So "every grid point holds a defined value for every
channel the record ever observed" fails as stated. -/
theorem c6_alignment_counterexample :
    (∃ p ∈ c6Ghost, p.2.isSome = true) ∧
    resampleChannel c6Ghost (alignGrid c6Ghost c6Live) = [none, none] ∧
    alignGrid c6Ghost c6Live = [0, 1/100] :=
  ⟨of_decide_eq_true (by with_unfolding_all rfl),
   by with_unfolding_all rfl,
   by with_unfolding_all rfl⟩



theorem c6_alignment_amended_witness :
    (alignGrid c6WGhost c6WLive).Pairwise (· < ·) ∧
    (∀ t ∈ alignGrid c6WGhost c6WLive, 0 ≤ t ∧
      t < max (recordDuration c6WGhost) (recordDuration c6WLive)) ∧
    (resampleChannel c6WGhost (alignGrid c6WGhost c6WLive)).length =
      (alignGrid c6WGhost c6WLive).length ∧
    (resampleChannel c6WLive (alignGrid c6WGhost c6WLive)).length =
      (alignGrid c6WGhost c6WLive).length ∧
    ((∃ gp ∈ alignGrid c6WGhost c6WLive, ∃ p ∈ c6WGhost,
        p.2.isSome = true ∧ p.1 ≤ gp) →
      ∀ y ∈ resampleChannel c6WGhost (alignGrid c6WGhost c6WLive),
        y.isSome = true) ∧
    ((∃ gp ∈ alignGrid c6WGhost c6WLive, ∃ p ∈ c6WLive,
        p.2.isSome = true ∧ p.1 ≤ gp) →
      ∀ y ∈ resampleChannel c6WLive (alignGrid c6WGhost c6WLive),
        y.isSome = true) ∧
    ((∀ p ∈ c6WGhost, p.2 = none) →
      ∀ y ∈ resampleChannel c6WGhost (alignGrid c6WGhost c6WLive), y = none) ∧
    ((∀ p ∈ c6WLive, p.2 = none) →
      ∀ y ∈ resampleChannel c6WLive (alignGrid c6WGhost c6WLive), y = none) :=
  c6_alignment_amended c6WGhost c6WLive
    (of_decide_eq_true (by with_unfolding_all rfl))
    (of_decide_eq_true (by with_unfolding_all rfl))

/-! ## Claims C1 and C9 -/

theorem sectorLabels_length (d : List (Option ℚ)) :
    (sectorLabels d).length = d.length := by
  unfold sectorLabels bfillO ffillO
  rw [List.length_reverse, ffillAux_length, List.length_reverse,
    ffillAux_length, List.length_map]

theorem sector_count_partition :
    ∀ ls : List (Option Sector), (∀ x ∈ ls, x.isSome = true) →
      sectorCount ls 0 + sectorCount ls 1 + sectorCount ls 2 = ls.length := by
  intro ls
  induction ls with
  | nil => intro _; rfl
  | cons x rest ih =>
    intro h
    have hx := h x (List.mem_cons_self x rest)
    obtain ⟨s, rfl⟩ := Option.isSome_iff_exists.mp hx
    have ih2 := ih (fun z hz => h z (List.mem_cons_of_mem _ hz))
    unfold sectorCount at ih2 ⊢
    fin_cases s <;> simp [List.count_cons] <;> omega

/-- Core sector-sum identity: when every grid row of both (equal-length)
frames carries a sector label, every row is counted in exactly one of the
three sector rows of the table, so the per-sector deltas sum to exactly
zero, whatever the underlying distances were. -/
theorem sectorDeltaSum_eq_zero (gl ll : List (Option Sector))
    (hg : ∀ x ∈ gl, x.isSome = true) (hl : ∀ x ∈ ll, x.isSome = true)
    (hlen : gl.length = ll.length) :
    sectorDeltaSum gl ll = 0 := by
  have hpg := sector_count_partition gl hg
  have hpl := sector_count_partition ll hl
  have cg : (sectorCount gl 0 : ℚ) + (sectorCount gl 1 : ℚ) + (sectorCount gl 2 : ℚ) =
      (gl.length : ℚ) := by exact_mod_cast hpg
  have cl : (sectorCount ll 0 : ℚ) + (sectorCount ll 1 : ℚ) + (sectorCount ll 2 : ℚ) =
      (ll.length : ℚ) := by exact_mod_cast hpl
  have clen : (gl.length : ℚ) = (ll.length : ℚ) := by exact_mod_cast hlen
  unfold sectorDeltaSum sectorTable
  simp only [List.map_cons, List.map_nil, List.map_map, Function.comp,
    List.sum_cons, List.sum_nil]
  linarith

/-- Claim C9: for every aligned pair whose two (equal-length) resampled
frames have every grid row labelled with a sector after forward/backward
fill, the per-sector deltas (live row count minus ghost row count, times
the 0.01 s step) sum to exactly zero, independent of the speed and
distance data in either lap. -/
theorem c9_zero_sum (gd ld : List (Option ℚ))
    (hg : ∀ x ∈ sectorLabels gd, x.isSome = true)
    (hl : ∀ x ∈ sectorLabels ld, x.isSome = true)
    (hlen : gd.length = ld.length) :
    sectorDeltaSum (sectorLabels gd) (sectorLabels ld) = 0 :=
  sectorDeltaSum_eq_zero _ _ hg hl
    (by rw [sectorLabels_length, sectorLabels_length, hlen])

theorem c9_zero_sum_witness :
    sectorDeltaSum (sectorLabels c9GhostDists) (sectorLabels c9LiveDists) = 0 :=
  c9_zero_sum c9GhostDists c9LiveDists
    (of_decide_eq_true (by with_unfolding_all rfl))
    (of_decide_eq_true (by with_unfolding_all rfl))
    rfl

/-- Claim C1 (amended): whenever every grid row of both (equal-length)
frames receives a sector label, the sector deltas sum to exactly 0, so
they agree with the final cumulative delta within any tolerance exactly
when that final value is itself within the tolerance of zero (e.g. for
identical speed traces). -/
theorem c1_sector_sum_amended (gd ld gs ls : List (Option ℚ))
    (hg : ∀ x ∈ sectorLabels gd, x.isSome = true)
    (hl : ∀ x ∈ sectorLabels ld, x.isSome = true)
    (hlen : gd.length = ld.length) :
    sectorDeltaSum (sectorLabels gd) (sectorLabels ld) = 0 ∧
    (∀ ε : ℚ, |sectorDeltaSum (sectorLabels gd) (sectorLabels ld) -
        cumDeltaFinal gs ls| ≤ ε ↔ |cumDeltaFinal gs ls| ≤ ε) := by
  have h0 := sectorDeltaSum_eq_zero (sectorLabels gd) (sectorLabels ld) hg hl
    (by rw [sectorLabels_length, sectorLabels_length, hlen])
  refine ⟨h0, fun ε => ?_⟩
  rw [h0, zero_sub, abs_neg]





/-- Claim C1 (counterexample): on an aligned pair whose live speed exceeds
the ghost speed everywhere, the final cumulative delta is 0.004 s while
the per-sector deltas (equal row counts on both sides) sum to 0 — far
outside any floating-rounding tolerance such as 1e-6 s. -/
theorem c1_sector_sum_counterexample :
    sectorDeltaSum (sectorLabels c1GhostDists) (sectorLabels c1LiveDists) = 0 ∧
    cumDeltaFinal c1GhostSpeeds c1LiveSpeeds = 1 / 250 ∧
    ¬ (|sectorDeltaSum (sectorLabels c1GhostDists) (sectorLabels c1LiveDists) -
        cumDeltaFinal c1GhostSpeeds c1LiveSpeeds| ≤ 1 / 1000000) :=
  ⟨by with_unfolding_all rfl,
   by with_unfolding_all rfl,
   of_decide_eq_true (by with_unfolding_all rfl)⟩

theorem c1_sector_sum_amended_witness :
    sectorDeltaSum (sectorLabels [some 1000, some 2000])
      (sectorLabels [some 1100, some 2600]) = 0 ∧
    (∀ ε : ℚ, |sectorDeltaSum (sectorLabels [some 1000, some 2000])
        (sectorLabels [some 1100, some 2600]) -
        cumDeltaFinal [some 10, some 10] [some 10, some 10]| ≤ ε ↔
      |cumDeltaFinal [some 10, some 10] [some 10, some 10]| ≤ ε) :=
  c1_sector_sum_amended [some 1000, some 2000] [some 1100, some 2600]
    [some 10, some 10] [some 10, some 10]
    (of_decide_eq_true (by with_unfolding_all rfl))
    (of_decide_eq_true (by with_unfolding_all rfl))
    rfl
